import Mathlib

/-!
Shallow embedding of src/ifstat.c (Yamagi/ifstat), a small FreeBSD tool
that periodically samples one network interface's cumulative byte
counters and writes bytes-per-second rates to a CSV file.

Modelling conventions:
* C `double` arithmetic (line 206 of the source) is modelled by exact
  rationals; the constant 1e-6 is modelled as 10⁻⁶.
* machine integers are `Nat` with explicit reduction modulo 2^32 where
  the source uses `uint32_t`;
* behaviour that is undefined in C (float-to-integer conversion of a
  value outside the target range, division by zero producing inf/NaN
  that is then converted) is modelled by `Option.none`;
* the uninitialized stack variable `old_tv` (line 192) is modelled as an
  explicit parameter of the loop-entry state, since C attaches no
  defined value to it.
-/

namespace Ifstat

/-- The modulus 2^32 of the `uint32_t` arithmetic in the program. -/
def U32 : ℕ := 4294967296

/-- The boundary 2^31 between the non-negative and negative values of
the `%i` printf conversion
used at line 220. -/
def I32 : ℕ := 2147483648

/-- Truncation toward zero of a rational: the semantics of C's
float-to-integer conversion (C17 6.3.1.4) when the truncated value is
representable in the target type. -/
def ctrunc (q : ℚ) : ℤ :=
  if 0 ≤ q.num then ((q.num.toNat / q.den : ℕ) : ℤ)
  else -(((-q.num).toNat / q.den : ℕ) : ℤ)

/-- Line 202/203: `cur_inb = data->ifmd_data.ifi_ibytes - old_inb`.
The 64-bit cumulative counter minus the stored 32-bit value, assigned to
a `uint32_t`, i.e. the difference reduced modulo 2^32. -/
def counterDelta (c prev : ℕ) : ℕ := (c + (U32 - prev % U32)) % U32

/-- Lines 210/211: `old_inb = data->ifmd_data.ifi_ibytes`, a `uint32_t`
assignment, keeping only the low 32 bits of the OS counter. -/
def storedCounter (c : ℕ) : ℕ := c % U32

/-- Lines 206/207: `cur_inb /= tv.tv_sec + (tv.tv_usec * 1e-6)`.
The `uint32_t` value is converted to `double`, divided by the elapsed
time, and the quotient converted back into the `uint32_t`.  The result
is `none` when the C computation is undefined: a zero divisor produces
inf or NaN, whose integer conversion is undefined, and a truncated
quotient outside [0, 2^32) is not representable. -/
def assignDiv32 (n : ℕ) (e : ℚ) : Option ℕ :=
  if e = 0 then none
  else
    let t := ctrunc ((n : ℚ) / e)
    if 0 ≤ t ∧ t < (U32 : ℤ) then some t.toNat else none

/-- One reading of the OS counters together with the `gettimeofday`
wall-clock time (lines 197/198): the cumulative inbound and outbound
byte counts and the sample time in seconds. -/
structure Snapshot where
  ibytes : ℕ
  obytes : ℕ
  t : ℚ

/-- The loop-carried state: `old_inb`, `old_outb` (both `uint32_t`) and
`old_tv` (lines 190-192), i.e. the previous iteration's stored counters
and timestamp. -/
structure PrevState where
  old_inb : ℕ
  old_outb : ℕ
  old_tv : ℚ

/-- One pass of the sampling-loop body (lines 197-212): compute the
elapsed time via `timersub`, the two counter deltas, the two normalized
rates, and the updated previous-iteration state. -/
def iterate (s : PrevState) (snap : Snapshot) :
    (Option ℕ × Option ℕ) × PrevState :=
  let elapsed := snap.t - s.old_tv
  ((assignDiv32 (counterDelta snap.ibytes s.old_inb) elapsed,
    assignDiv32 (counterDelta snap.obytes s.old_outb) elapsed),
   ⟨storedCounter snap.ibytes, storedCounter snap.obytes, snap.t⟩)

/-- Loop-entry state: `old_inb = old_outb = 0` (lines 190/191), while
`old_tv` (line 192) is an uninitialized stack variable that the first
`timersub` call nevertheless reads; C gives it no defined value, so it
is a parameter here. -/
def initialPrev (tv0 : ℚ) : PrevState := ⟨0, 0, tv0⟩

/-- Line 228: `usleep(interval * 1000 * 1000)`.  The multiplication is
performed in 32-bit `int` arithmetic and the product is then converted
to the 32-bit unsigned `useconds_t`, so the requested sleep duration in
microseconds is the product reduced modulo 2^32. -/
def sleepMicros (interval : ℕ) : ℕ := (interval * 1000 * 1000) % U32

-- ------------------------------------------------------------------
-- Helper lemmas about the rate computation
-- ------------------------------------------------------------------

theorem counterDelta_of_le {c p : ℕ} (hpc : p ≤ c) (hc : c < U32) :
    counterDelta c p = c - p := by
  simp only [counterDelta, U32] at *
  omega

theorem ctrunc_nonneg {q : ℚ} (h : 0 ≤ q) : 0 ≤ ctrunc q := by
  rw [ctrunc, if_pos (Rat.num_nonneg.mpr h)]
  exact Int.ofNat_nonneg _

theorem assignDiv32_pos {n : ℕ} {e : ℚ} (he : 0 < e)
    (hb : ctrunc ((n : ℚ) / e) < (U32 : ℤ)) :
    assignDiv32 n e = some (ctrunc ((n : ℚ) / e)).toNat := by
  have hq : (0 : ℚ) ≤ (n : ℚ) / e := div_nonneg (Nat.cast_nonneg n) he.le
  rw [assignDiv32, if_neg (ne_of_gt he)]
  exact if_pos ⟨ctrunc_nonneg hq, hb⟩

-- ------------------------------------------------------------------
-- C1
-- ------------------------------------------------------------------

/-- C1 (refutation): on the very first loop iteration the code does not
produce in_rate = out_rate = 0; it divides the full cumulative counter
values by the time elapsed since the indeterminate `old_tv`.  With the
representative uninitialized value 0 for `old_tv`, a first reading of
1000000 bytes in / 2000000 bytes out at t = 5 s yields the rates
200000 and 400000, not 0. -/
theorem c1_first_sample_not_zero :
    (iterate (initialPrev 0) ⟨1000000, 2000000, 5⟩).1 =
      (some 200000, some 400000) ∧
    (iterate (initialPrev 0) ⟨1000000, 2000000, 5⟩).1 ≠ (some 0, some 0) := by
  have heq : (iterate (initialPrev 0) ⟨1000000, 2000000, 5⟩).1 =
      (some 200000, some 400000) := by
    norm_num [iterate, initialPrev, counterDelta, storedCounter,
      assignDiv32, ctrunc, U32]
    constructor <;> rfl
  refine ⟨heq, ?_⟩
  rw [heq]
  simp

-- ------------------------------------------------------------------
-- C2
-- ------------------------------------------------------------------

/-- C2 (refutation): when two consecutive readings carry the same
timestamp (elapsed = 0) the code does not yield rate 0; it divides by
zero in `double`, producing inf (or NaN), whose conversion back to
`uint32_t` is undefined.  Concretely: previous counters 100/200 at
t = 10 s, current counters 200/500 also at t = 10 s. -/
theorem c2_zero_elapsed_undefined :
    (iterate ⟨100, 200, 10⟩ ⟨200, 500, 10⟩).1 = (none, none) ∧
    (iterate ⟨100, 200, 10⟩ ⟨200, 500, 10⟩).1 ≠ (some 0, some 0) := by
  have heq : (iterate ⟨100, 200, 10⟩ ⟨200, 500, 10⟩).1 = (none, none) := by
    norm_num [iterate, assignDiv32]
  refine ⟨heq, ?_⟩
  rw [heq]
  simp

-- ------------------------------------------------------------------
-- C3
-- ------------------------------------------------------------------

/-- C3 (counterexample to the unrestricted claim): with previous stored
counters 0 at t = 10 s and a current reading of 4000000000 bytes in at
t = 10.5 s (elapsed = 1/2 > 0, counters non-decreasing), the claimed
rate is trunc(4000000000 / (1/2)) = 8000000000, but that value is not
representable in `uint32_t`, so the conversion is undefined and the
code yields no defined rate at all. -/
theorem c3_unrepresentable_rate :
    (iterate ⟨0, 0, 10⟩ ⟨4000000000, 0, 21 / 2⟩).1.1 = none ∧
    ctrunc (((4000000000 : ℚ) - 0) / ((21 / 2 : ℚ) - 10)) = 8000000000 := by
  constructor
  · norm_num [iterate, assignDiv32, ctrunc, counterDelta, U32]
  · norm_num [ctrunc]

/-- C3 (amended): for every pair of consecutive snapshots with
elapsed > 0 and non-decreasing 32-bit counter values, provided each
truncated quotient is representable in `uint32_t`, each direction's
rate equals the counter difference divided by the elapsed fractional
seconds, truncated toward zero, and both truncated quotients are
non-negative. -/
theorem c3_rate_formula (pin pout : ℕ) (pt : ℚ) (snap : Snapshot)
    (h1 : pin ≤ snap.ibytes) (h2 : snap.ibytes < U32)
    (h3 : pout ≤ snap.obytes) (h4 : snap.obytes < U32)
    (h5 : pt < snap.t)
    (h6 : ctrunc (((snap.ibytes : ℚ) - pin) / (snap.t - pt)) < (U32 : ℤ))
    (h7 : ctrunc (((snap.obytes : ℚ) - pout) / (snap.t - pt)) < (U32 : ℤ)) :
    (iterate ⟨pin, pout, pt⟩ snap).1 =
      (some (ctrunc (((snap.ibytes : ℚ) - pin) / (snap.t - pt))).toNat,
       some (ctrunc (((snap.obytes : ℚ) - pout) / (snap.t - pt))).toNat) ∧
    0 ≤ ctrunc (((snap.ibytes : ℚ) - pin) / (snap.t - pt)) ∧
    0 ≤ ctrunc (((snap.obytes : ℚ) - pout) / (snap.t - pt)) := by
  have he : (0 : ℚ) < snap.t - pt := sub_pos.mpr h5
  have hci : ((snap.ibytes - pin : ℕ) : ℚ) = (snap.ibytes : ℚ) - pin := by
    push_cast [h1]; ring
  have hco : ((snap.obytes - pout : ℕ) : ℚ) = (snap.obytes : ℚ) - pout := by
    push_cast [h3]; ring
  have hle1 : (pin : ℚ) ≤ (snap.ibytes : ℚ) := by exact_mod_cast h1
  have hle3 : (pout : ℚ) ≤ (snap.obytes : ℚ) := by exact_mod_cast h3
  have hni : (0 : ℚ) ≤ ((snap.ibytes : ℚ) - pin) / (snap.t - pt) :=
    div_nonneg (sub_nonneg.mpr hle1) he.le
  have hno : (0 : ℚ) ≤ ((snap.obytes : ℚ) - pout) / (snap.t - pt) :=
    div_nonneg (sub_nonneg.mpr hle3) he.le
  refine ⟨?_, ctrunc_nonneg hni, ctrunc_nonneg hno⟩
  simp only [iterate]
  rw [counterDelta_of_le h1 h2, counterDelta_of_le h3 h4]
  rw [assignDiv32_pos he (by rw [hci]; exact h6),
    assignDiv32_pos he (by rw [hco]; exact h7), hci, hco]

/-- C3 witness: the spec's own example.  Previous snapshot
(1000000 in, 2000000 out) at t = 0 s, current snapshot
(1000100 in, 2000300 out) at t = 1 s: the rates are 100 and 300. -/
theorem c3_rate_formula_witness :
    (iterate ⟨1000000, 2000000, 0⟩ ⟨1000100, 2000300, 1⟩).1 =
      (some 100, some 300) := by
  have h := c3_rate_formula 1000000 2000000 0 ⟨1000100, 2000300, 1⟩
    (by norm_num) (by norm_num [U32]) (by norm_num) (by norm_num [U32])
    (by norm_num) (by norm_num [ctrunc, U32]) (by norm_num [ctrunc, U32])
  rw [h.1]
  norm_num [ctrunc]
  constructor <;> rfl

-- ------------------------------------------------------------------
-- C9
-- ------------------------------------------------------------------

/-- C9: counter deltas are unsigned 32-bit subtraction of counters that
were truncated to their low 32 bits when stored: the delta of two
consecutive readings is (current - previous) mod 2^32; a decrease wraps
to the positive value 2^32 - (previous - current); growth by an exact
multiple of 2^32 yields delta 0. -/
theorem c9_unsigned_delta :
    (∀ c p : ℕ,
      ((counterDelta c (storedCounter p) : ℕ) : ℤ) =
        ((c : ℤ) - (p : ℤ)) % (U32 : ℤ)) ∧
    (∀ c p : ℕ, c < p → p - c < U32 →
      counterDelta c (storedCounter p) = U32 - (p - c) ∧
      0 < counterDelta c (storedCounter p)) ∧
    (∀ p k : ℕ, counterDelta (p + k * U32) (storedCounter p) = 0) := by
  refine ⟨?_, ?_, ?_⟩
  · intro c p
    simp only [counterDelta, storedCounter, U32]
    omega
  · intro c p h1 h2
    simp only [counterDelta, storedCounter, U32] at *
    omega
  · intro p k
    simp only [counterDelta, storedCounter, U32]
    omega

/-- C9 witness: reading 4 after reading 10 (a decrease of 6) yields the
wrapped delta 2^32 - 6; growth from 100 by exactly 2^32 yields delta 0;
and 100 after 30 yields (100 - 30) mod 2^32 = 70. -/
theorem c9_unsigned_delta_witness :
    ((counterDelta 100 (storedCounter 30) : ℕ) : ℤ) =
      ((100 : ℤ) - 30) % (U32 : ℤ) ∧
    counterDelta 4 (storedCounter 10) = U32 - 6 ∧
    counterDelta (100 + 1 * U32) (storedCounter 100) = 0 := by
  refine ⟨c9_unsigned_delta.1 100 30, ?_, c9_unsigned_delta.2.2 100 1⟩
  have h := (c9_unsigned_delta.2.1 4 10 (by norm_num) (by norm_num [U32])).1
  simpa using h

-- ------------------------------------------------------------------
-- Text model for the CSV sink (lines 179-221)
-- ------------------------------------------------------------------

/-- The ASCII digit character for a value below ten. -/
def digitChar (d : ℕ) : Char := Char.ofNat (48 + d)

/-- Decimal digit string of a natural number, most significant digit
first (the `%i` / `%Y` conversions of `snprintf` / `strftime`); the
first argument is recursion fuel. -/
def natToCharsAux : ℕ → ℕ → List Char
  | 0, _ => []
  | fuel + 1, n =>
    if n < 10 then [digitChar n]
    else natToCharsAux fuel (n / 10) ++ [digitChar (n % 10)]

/-- Decimal digit string of a natural number. -/
def natToChars (n : ℕ) : List Char := natToCharsAux (n + 1) n

/-- Decimal reading of a digit string, with accumulator. -/
def parseNatAcc (a : ℕ) : List Char → ℕ
  | [] => a
  | ch :: rest => parseNatAcc (a * 10 + (ch.toNat - 48)) rest

/-- The `%i` rendering of an integer: optional minus sign, then digits. -/
def intChars (i : ℤ) : List Char :=
  if i < 0 then '-' :: natToChars (-i).toNat else natToChars i.toNat

/-- Decimal reading of an optionally signed integer string. -/
def parseIntChars (l : List Char) : ℤ :=
  match l with
  | '-' :: rest => -(parseNatAcc 0 rest : ℤ)
  | _ => (parseNatAcc 0 l : ℤ)

/-- The value printed for a `uint32_t` by the `%i` conversion at line
220: values at or above 2^31 are reinterpreted as negative two's
complement integers. -/
def int32OfUInt (v : ℕ) : ℤ :=
  if v % U32 < I32 then ((v % U32 : ℕ) : ℤ)
  else ((v % U32 : ℕ) : ℤ) - (U32 : ℤ)

/-- A broken-down local time, as produced by `localtime` (line 216). -/
structure Tm where
  year : ℕ
  month : ℕ
  day : ℕ
  hour : ℕ
  minute : ℕ
  second : ℕ

/-- Two-digit zero-padded field (`%m`, `%d`, `%H`, `%M`, `%S`). -/
def pad2 (n : ℕ) : List Char :=
  if n < 10 then '0' :: natToChars n else natToChars n

/-- The `strftime` format string of line 217: `%Y.%m.%d %H:%M:%S`. -/
def timeChars (t : Tm) : List Char :=
  natToChars t.year ++ '.' :: (pad2 t.month ++ '.' :: (pad2 t.day ++
    ' ' :: (pad2 t.hour ++ ':' :: (pad2 t.minute ++ ':' :: pad2 t.second))))

/-- The data line written at lines 219-221:
`snprintf(s, sizeof(s), "%s,%i,%i\n", t, cur_inb, cur_outb)`. -/
def formatRow (t : Tm) (ri ro : ℤ) : List Char :=
  timeChars t ++ ',' :: (intChars ri ++ ',' :: (intChars ro ++ ['\n']))

/-- The header written once before the loop (lines 183/184). -/
def headerChars : List Char :=
  String.toList ("date,input in bytes per second,output in bytes per second\n")

/-- The header line without its terminating newline. -/
def headerBody : List Char :=
  String.toList ("date,input in bytes per second,output in bytes per second")

/-- Split a character list at every occurrence of a separator. -/
def splitOn (c : Char) : List Char → List (List Char)
  | [] => [[]]
  | x :: xs =>
    match splitOn c xs with
    | [] => [[]]
    | y :: ys => if x = c then [] :: y :: ys else (x :: y) :: ys

/-- Remove a terminating newline; fails when the text does not end in
one. -/
def stripNewline (l : List Char) : Option (List Char) :=
  match l.reverse with
  | '\n' :: rest => some rest.reverse
  | _ => none

/-- Extract the three comma-separated fields of a data line. -/
def parseFields : List (List Char) → Option (List Char × ℤ × ℤ)
  | [ts, f1, f2] => some (ts, parseIntChars f1, parseIntChars f2)
  | _ => none

/-- Parse one written data line back: timestamp field, then the two
comma-separated integers. -/
def parseRow (l : List Char) : Option (List Char × ℤ × ℤ) :=
  (stripNewline l).bind fun body => parseFields (splitOn ',' body)

/-- One completed loop iteration's written record: the local time of
the sample and the two `uint32_t` rate values. -/
structure Row where
  tm : Tm
  rin : ℕ
  rout : ℕ

/-- The characters written for one row. -/
def rowLine (r : Row) : List Char :=
  formatRow r.tm (int32OfUInt r.rin) (int32OfUInt r.rout)

/-- The data line without its terminating newline. -/
def rowBody (r : Row) : List Char :=
  timeChars r.tm ++ ',' :: (intChars (int32OfUInt r.rin) ++
    ',' :: intChars (int32OfUInt r.rout))

/-- Model of `fopen(outfile, "w")` (line 180): truncate-and-write mode discards
any prior contents of the file. -/
def fopenTruncate (_prior : List Char) : List Char := []

/-- The whole file contents after the header write and any number of
completed loop iterations, starting from a file that previously held
`prior`. -/
def fileContent (prior : List Char) (rows : List Row) : List Char :=
  fopenTruncate prior ++ headerChars ++ (rows.map rowLine).flatten

-- ------------------------------------------------------------------
-- Lemmas about the text model
-- ------------------------------------------------------------------

theorem digitChar_toNat {d : ℕ} (h : d < 10) : (digitChar d).toNat = 48 + d := by
  interval_cases d <;> decide

theorem digitChar_ne {d : ℕ} (h : d < 10) :
    digitChar d ≠ ',' ∧ digitChar d ≠ '\n' ∧ digitChar d ≠ '-' := by
  interval_cases d <;> decide

theorem parseNatAcc_nil (a : ℕ) : parseNatAcc a [] = a := rfl

theorem parseNatAcc_cons (a : ℕ) (ch : Char) (rest : List Char) :
    parseNatAcc a (ch :: rest) = parseNatAcc (a * 10 + (ch.toNat - 48)) rest := rfl

theorem parseNatAcc_append (xs ys : List Char) :
    ∀ a, parseNatAcc a (xs ++ ys) = parseNatAcc (parseNatAcc a xs) ys := by
  induction xs with
  | nil => intro a; rfl
  | cons x xs ih =>
    intro a
    rw [List.cons_append, parseNatAcc_cons, parseNatAcc_cons]
    exact ih _

theorem natToCharsAux_succ (fuel n : ℕ) :
    natToCharsAux (fuel + 1) n =
      if n < 10 then [digitChar n]
      else natToCharsAux fuel (n / 10) ++ [digitChar (n % 10)] := rfl

theorem parseNatAcc_natToCharsAux :
    ∀ fuel n a : ℕ, n < fuel →
      parseNatAcc a (natToCharsAux fuel n) =
        a * 10 ^ (natToCharsAux fuel n).length + n := by
  intro fuel
  induction fuel with
  | zero => intro n a h; omega
  | succ fuel ih =>
    intro n a h
    by_cases h10 : n < 10
    · rw [natToCharsAux_succ, if_pos h10, parseNatAcc_cons, parseNatAcc_nil,
        digitChar_toNat h10, List.length_singleton]
      omega
    · have hd : n / 10 < fuel := by
        have h2 := Nat.div_lt_self (by omega : 0 < n) (by norm_num : 1 < 10)
        omega
      have hm : n % 10 < 10 := Nat.mod_lt _ (by norm_num)
      rw [natToCharsAux_succ, if_neg h10, parseNatAcc_append, ih (n / 10) a hd,
        parseNatAcc_cons, parseNatAcc_nil, digitChar_toNat hm,
        List.length_append, List.length_singleton]
      have h48 : 48 + n % 10 - 48 = n % 10 := by omega
      rw [h48]
      calc (a * 10 ^ (natToCharsAux fuel (n / 10)).length + n / 10) * 10 + n % 10
          = a * (10 ^ (natToCharsAux fuel (n / 10)).length * 10) +
            (10 * (n / 10) + n % 10) := by ring
        _ = a * 10 ^ ((natToCharsAux fuel (n / 10)).length + 1) + n := by
            rw [Nat.div_add_mod, pow_succ]

theorem parseNat_natToChars (n : ℕ) : parseNatAcc 0 (natToChars n) = n := by
  have h := parseNatAcc_natToCharsAux (n + 1) n 0 (Nat.lt_succ_self n)
  simpa using h

theorem natToCharsAux_mem :
    ∀ fuel n : ℕ, ∀ c ∈ natToCharsAux fuel n, ∃ d, d < 10 ∧ c = digitChar d := by
  intro fuel
  induction fuel with
  | zero => intro n c hc; simp [natToCharsAux] at hc
  | succ fuel ih =>
    intro n c hc
    by_cases h10 : n < 10
    · rw [natToCharsAux_succ, if_pos h10, List.mem_singleton] at hc
      exact ⟨n, h10, hc⟩
    · rw [natToCharsAux_succ, if_neg h10] at hc
      rw [List.mem_append, List.mem_singleton] at hc
      rcases hc with hc | hc
      · exact ih _ c hc
      · exact ⟨n % 10, Nat.mod_lt _ (by norm_num), hc⟩

theorem natToChars_mem {n : ℕ} {c : Char} (h : c ∈ natToChars n) :
    ∃ d, d < 10 ∧ c = digitChar d := natToCharsAux_mem _ _ c h

theorem pad2_mem {n : ℕ} {c : Char} (h : c ∈ pad2 n) :
    ∃ d, d < 10 ∧ c = digitChar d := by
  by_cases h10 : n < 10
  · simp only [pad2, if_pos h10, List.mem_cons] at h
    rcases h with h | h
    · exact ⟨0, by norm_num, by rw [h]; decide⟩
    · exact natToChars_mem h
  · rw [pad2, if_neg h10] at h
    exact natToChars_mem h

theorem intChars_mem {i : ℤ} {c : Char} (h : c ∈ intChars i) :
    c = '-' ∨ ∃ d, d < 10 ∧ c = digitChar d := by
  by_cases hi : i < 0
  · simp only [intChars, if_pos hi, List.mem_cons] at h
    rcases h with h | h
    · exact Or.inl h
    · exact Or.inr (natToChars_mem h)
  · rw [intChars, if_neg hi] at h
    exact Or.inr (natToChars_mem h)

theorem intChars_not_mem (i : ℤ) : ',' ∉ intChars i ∧ '\n' ∉ intChars i := by
  constructor <;> intro h <;> rcases intChars_mem h with h1 | ⟨d, hd, h1⟩
  · exact absurd h1.symm (by decide)
  · exact absurd h1.symm (digitChar_ne hd).1
  · exact absurd h1.symm (by decide)
  · exact absurd h1.symm (digitChar_ne hd).2.1

theorem timeChars_mem {t : Tm} {c : Char} (h : c ∈ timeChars t) :
    (∃ d, d < 10 ∧ c = digitChar d) ∨ c = '.' ∨ c = ' ' ∨ c = ':' := by
  simp only [timeChars, List.mem_append, List.mem_cons] at h
  rcases h with h | h | h | h | h | h | h | h | h | h | h
  · exact Or.inl (natToChars_mem h)
  · exact Or.inr (Or.inl h)
  · exact Or.inl (pad2_mem h)
  · exact Or.inr (Or.inl h)
  · exact Or.inl (pad2_mem h)
  · exact Or.inr (Or.inr (Or.inl h))
  · exact Or.inl (pad2_mem h)
  · exact Or.inr (Or.inr (Or.inr h))
  · exact Or.inl (pad2_mem h)
  · exact Or.inr (Or.inr (Or.inr h))
  · exact Or.inl (pad2_mem h)

theorem timeChars_not_mem (t : Tm) : ',' ∉ timeChars t ∧ '\n' ∉ timeChars t := by
  constructor <;> intro h <;>
    rcases timeChars_mem h with ⟨d, hd, h1⟩ | h1 | h1 | h1
  · exact absurd h1.symm (digitChar_ne hd).1
  · exact absurd h1 (by decide)
  · exact absurd h1 (by decide)
  · exact absurd h1 (by decide)
  · exact absurd h1.symm (digitChar_ne hd).2.1
  · exact absurd h1 (by decide)
  · exact absurd h1 (by decide)
  · exact absurd h1 (by decide)

theorem parseIntChars_no_dash {l : List Char} (h : ∀ c ∈ l, c ≠ '-') :
    parseIntChars l = (parseNatAcc 0 l : ℤ) := by
  unfold parseIntChars
  split
  · exact absurd rfl (h '-' (by simp))
  · rfl

theorem parseIntChars_intChars (i : ℤ) : parseIntChars (intChars i) = i := by
  by_cases hi : i < 0
  · rw [intChars, if_pos hi]
    show -(parseNatAcc 0 (natToChars (-i).toNat) : ℤ) = i
    rw [parseNat_natToChars, Int.toNat_of_nonneg (by omega)]
    omega
  · rw [intChars, if_neg hi]
    rw [parseIntChars_no_dash fun c hc => by
      obtain ⟨d, hd, rfl⟩ := natToChars_mem hc
      exact (digitChar_ne hd).2.2]
    rw [parseNat_natToChars, Int.toNat_of_nonneg (by omega)]

theorem splitOn_cons_eq (c x : Char) (xs : List Char) :
    splitOn c (x :: xs) =
      match splitOn c xs with
      | [] => [[]]
      | y :: ys => if x = c then [] :: y :: ys else (x :: y) :: ys := rfl

theorem splitOn_ne_nil (c : Char) (l : List Char) : splitOn c l ≠ [] := by
  induction l with
  | nil => simp [splitOn]
  | cons x xs ih =>
    rw [splitOn_cons_eq]
    cases h : splitOn c xs with
    | nil => simp
    | cons y ys =>
      by_cases hxc : x = c <;> simp [hxc]

theorem splitOn_not_mem {c : Char} {l : List Char} (h : c ∉ l) :
    splitOn c l = [l] := by
  induction l with
  | nil => rfl
  | cons x xs ih =>
    have hx : x ≠ c := fun he => h (he ▸ List.mem_cons_self x xs)
    have hxs : c ∉ xs := fun hm => h (List.mem_cons_of_mem _ hm)
    rw [splitOn_cons_eq, ih hxs]
    simp [hx]

theorem splitOn_cons (c : Char) (rest : List Char) :
    splitOn c (c :: rest) = [] :: splitOn c rest := by
  rw [splitOn_cons_eq]
  cases h : splitOn c rest with
  | nil => exact absurd h (splitOn_ne_nil c rest)
  | cons y ys => simp

theorem splitOn_append {c : Char} {pre : List Char} (h : c ∉ pre)
    (rest : List Char) :
    splitOn c (pre ++ c :: rest) = pre :: splitOn c rest := by
  induction pre with
  | nil => simpa using splitOn_cons c rest
  | cons x xs ih =>
    have hx : x ≠ c := fun he => h (he ▸ List.mem_cons_self x xs)
    have hxs : c ∉ xs := fun hm => h (List.mem_cons_of_mem _ hm)
    rw [List.cons_append, splitOn_cons_eq, ih hxs]
    simp [hx]

theorem stripNewline_append (l : List Char) :
    stripNewline (l ++ ['\n']) = some l := by
  unfold stripNewline
  rw [List.reverse_append]
  simp

theorem parseFields_three (ts f1 f2 : List Char) :
    parseFields [ts, f1, f2] = some (ts, parseIntChars f1, parseIntChars f2) := rfl

theorem parseRow_formatRow (t : Tm) (ri ro : ℤ) :
    parseRow (formatRow t ri ro) = some (timeChars t, ri, ro) := by
  have hform : formatRow t ri ro =
      (timeChars t ++ ',' :: (intChars ri ++ ',' :: intChars ro)) ++ ['\n'] := by
    simp [formatRow, List.append_assoc]
  have hsplit : splitOn ',' (timeChars t ++ ',' :: (intChars ri ++ ',' :: intChars ro)) =
      [timeChars t, intChars ri, intChars ro] := by
    rw [splitOn_append (timeChars_not_mem t).1,
      splitOn_append (intChars_not_mem ri).1,
      splitOn_not_mem (intChars_not_mem ro).1]
  rw [parseRow, hform, stripNewline_append, Option.some_bind, hsplit,
    parseFields_three, parseIntChars_intChars, parseIntChars_intChars]

theorem rowLine_eq (r : Row) : rowLine r = rowBody r ++ ['\n'] := by
  simp [rowLine, formatRow, rowBody, List.append_assoc]

theorem rowBody_no_newline (r : Row) : '\n' ∉ rowBody r := by
  intro h
  simp only [rowBody, List.mem_append, List.mem_cons] at h
  rcases h with h | h | h | h | h
  · exact (timeChars_not_mem r.tm).2 h
  · exact absurd h (by decide)
  · exact (intChars_not_mem _).2 h
  · exact absurd h (by decide)
  · exact (intChars_not_mem _).2 h

theorem splitOn_newline_flatten :
    ∀ chunks : List (List Char), (∀ b ∈ chunks, '\n' ∉ b) →
      splitOn '\n' ((chunks.map (fun b => b ++ ['\n'])).flatten) =
        chunks ++ [[]] := by
  intro chunks
  induction chunks with
  | nil => intro _; rfl
  | cons b bs ih =>
    intro h
    simp only [List.map_cons, List.flatten_cons, List.append_assoc,
      List.singleton_append]
    rw [splitOn_append (h b (List.mem_cons_self b bs)),
      ih fun x hx => h x (List.mem_cons_of_mem _ hx)]
    rfl

-- ------------------------------------------------------------------
-- C4
-- ------------------------------------------------------------------

/-- C4: the output file is opened in truncate mode, so its contents do
not depend on what the file held before; at every point it consists of
exactly the single header line followed by exactly one data line per
completed loop iteration; and parsing any written data line back
recovers the timestamp string and the two printed integers. -/
theorem c4_csv_invariant (prior : List Char) (rows : List Row) :
    fileContent prior rows = fileContent [] rows ∧
    splitOn '\n' (fileContent prior rows) =
      headerBody :: (rows.map rowBody ++ [[]]) ∧
    ∀ r ∈ rows, parseRow (rowLine r) =
      some (timeChars r.tm, int32OfUInt r.rin, int32OfUInt r.rout) := by
  refine ⟨rfl, ?_, fun r _ => parseRow_formatRow r.tm _ _⟩
  have hmap : rows.map rowLine = rows.map (fun r => rowBody r ++ ['\n']) :=
    List.map_congr_left fun r _ => rowLine_eq r
  have hfile : fileContent prior rows =
      ((headerBody :: rows.map rowBody).map (fun b => b ++ ['\n'])).flatten := by
    simp only [fileContent, fopenTruncate, List.nil_append, List.map_cons,
      List.flatten_cons, List.map_map]
    rw [show headerChars = headerBody ++ ['\n'] from rfl, hmap]
    rfl
  rw [hfile, splitOn_newline_flatten]
  · simp
  · intro b hb
    rcases List.mem_cons.mp hb with hb | hb
    · rw [hb]; decide
    · obtain ⟨r, _, rfl⟩ := List.mem_map.mp hb
      exact rowBody_no_newline r

/-- C4 witness: a concrete run over prior file contents and one
completed iteration with local time 2024.01.02 03:04:05 and rates
100 and 300. -/
theorem c4_csv_invariant_witness :
    splitOn '\n'
        (fileContent (String.toList ("x")) [⟨⟨2024, 1, 2, 3, 4, 5⟩, 100, 300⟩]) =
      headerBody :: ([(⟨⟨2024, 1, 2, 3, 4, 5⟩, 100, 300⟩ : Row)].map rowBody ++ [[]]) ∧
    parseRow (rowLine ⟨⟨2024, 1, 2, 3, 4, 5⟩, 100, 300⟩) =
      some (timeChars ⟨2024, 1, 2, 3, 4, 5⟩, 100, 300) := by
  refine ⟨(c4_csv_invariant _ _).2.1, ?_⟩
  have h := (c4_csv_invariant (String.toList ("x"))
    [(⟨⟨2024, 1, 2, 3, 4, 5⟩, 100, 300⟩ : Row)]).2.2
    (⟨⟨2024, 1, 2, 3, 4, 5⟩, 100, 300⟩ : Row) (by simp)
  have h100 : int32OfUInt 100 = 100 := by norm_num [int32OfUInt, U32, I32]
  have h300 : int32OfUInt 300 = 300 := by norm_num [int32OfUInt, U32, I32]
  rw [h100, h300] at h
  exact h

-- ------------------------------------------------------------------
-- Startup: argument validation and interface resolution
-- (lines 64-72, 107-129, 145-184)
-- ------------------------------------------------------------------

/-- The per-character validation loop of lines 157-161: every character
of the interval argument must be a decimal digit, else `usage` is
called. -/
def checkDigits (s : String) : Bool := s.data.all Char.isDigit

/-- Model of `strtol(argv[2], NULL, 10)` (line 163) on a string that passed the
digit-only check: the decimal value of the digits; the empty string has
no digits to convert, so `strtol` returns 0. -/
def parseInterval (s : String) : ℕ := parseNatAcc 0 s.data

/-- The interface table visible through the sysctl MIB: entry i of the
list is the `ifmd_name` of interface row i+1, and `getifnumber`
(lines 94-105) reports the list's length. -/
structure SysEnv where
  ifaces : List String

/-- The scan loop of `getifrow` (lines 116-125), carrying the current
row index i: fetch each descriptor and return the first row whose name
matches; fall through to -1 (line 128) when none does. -/
def getifrowAux (names : List String) (ifname : String) (i : ℕ) : ℤ :=
  match names with
  | [] => -1
  | n :: rest => if n = ifname then (i : ℤ) else getifrowAux rest ifname (i + 1)

/-- Interface resolution, `getifrow` (lines 107-129): scan rows 1..N in
increasing order. -/
def getifrow (env : SysEnv) (ifname : String) : ℤ :=
  getifrowAux env.ifaces ifname 1

/-- Outcome of the startup phase of `main` (lines 148-184):
`usageExit` is `usage()` (exit 1, reached before any OS query),
`ifaceExit` is `error("Couldn't get interface")` (exit 1, reached
before the output file is opened), and `running` carries the parsed
interval and resolved row into the sampling loop, after the output
file has been created and the header written. -/
inductive StartResult where
  | usageExit
  | ifaceExit
  | running (outfile : String) (interval : ℕ) (row : ℕ)
deriving DecidableEq

/-- The startup sequence of `main` (lines 148-184): argument-count
check, digit-only interval validation, `strtol` conversion, interface
resolution, `row < 1` check. -/
def startup (argv : List String) (env : SysEnv) : StartResult :=
  match argv with
  | [_, outfile, ivstr, ifname] =>
    if checkDigits ivstr then
      let row := getifrow env ifname
      if row < 1 then .ifaceExit
      else .running outfile (parseInterval ivstr) row.toNat
    else .usageExit
  | _ => .usageExit

/-- The process exit status of a startup outcome: both `usage()` and
`error()` call `exit(1)`; a running process has not exited. -/
def exitStatus : StartResult → Option ℕ
  | .usageExit => some 1
  | .ifaceExit => some 1
  | .running _ _ _ => none

/-- Whether `fopen(outfile, "w")` (line 180) has been reached: only a
startup that succeeds creates the output file. -/
def fileCreated : StartResult → Bool
  | .running _ _ _ => true
  | _ => false

theorem startup_four (a0 outfile ivstr ifname : String) (env : SysEnv) :
    startup [a0, outfile, ivstr, ifname] env =
      if checkDigits ivstr then
        if getifrow env ifname < 1 then .ifaceExit
        else .running outfile (parseInterval ivstr) (getifrow env ifname).toNat
      else .usageExit := rfl

-- ------------------------------------------------------------------
-- The sampling loop as a state machine (lines 194-234)
-- ------------------------------------------------------------------

/-- Phases of the main loop and shutdown: `work` is the
sample-compute-write part of an iteration (lines 197-221), `check` the
`if (quit) break` test (lines 224/225), `sleeping` the `usleep` call
(line 228), `drain` the `fflush`/`fclose` after the loop (lines
231/232), `stopped` the `return 0` (line 234). -/
inductive Phase where
  | work
  | check
  | sleeping
  | drain
  | stopped
deriving DecidableEq

/-- Observable process state: the current phase, the `quit` flag
(line 45), and whether the output stream has been flushed and closed. -/
structure ProcState where
  phase : Phase
  quit : Bool
  flushed : Bool
  closed : Bool
deriving DecidableEq

/-- The `signalhandler` function (lines 74-78), installed for both SIGINT and
SIGTERM (lines 174/175): its only effect is `quit = 1`. -/
def signalhandler (s : ProcState) : ProcState := { s with quit := true }

/-- One program step of the main loop and the shutdown code. -/
def step (s : ProcState) : ProcState :=
  match s.phase with
  | .work => { s with phase := .check }
  | .check =>
    if s.quit then { s with phase := .drain } else { s with phase := .sleeping }
  | .sleeping => { s with phase := .work }
  | .drain => { s with phase := .stopped, flushed := true, closed := true }
  | .stopped => s

/-- The process exit status on reaching a phase: `return 0` at the
end of `main`. -/
def exitCodeOf : Phase → Option ℕ
  | .stopped => some 0
  | _ => none

/-- The phase after n program steps when the loop is entered (at the
`work` phase, line 194) with the quit flag q and no signal arrives. -/
def phaseAt (q : Bool) (n : ℕ) : Phase :=
  (step^[n] ⟨.work, q, false, false⟩).phase

-- ------------------------------------------------------------------
-- C5
-- ------------------------------------------------------------------

/-- C5: the signal handler only sets the cancellation flag; the flag
check guards entry to the sleep (the only transition into `sleeping` is
a check that saw the flag clear); a check that sees the flag set
transitions to draining instead of sleeping again; after waking, a
check is reached before any further sleep; once the flag is set the
loop never sleeps again; draining flushes and closes the output file
and the process stops with exit status 0. -/
theorem c5_graceful_shutdown :
    (∀ s : ProcState, signalhandler s = ⟨s.phase, true, s.flushed, s.closed⟩) ∧
    (∀ s : ProcState, s.phase = .check → s.quit = true →
      (step s).phase = .drain) ∧
    (∀ s : ProcState, s.phase = .check → s.quit = false →
      (step s).phase = .sleeping) ∧
    (∀ s : ProcState, (step s).phase = .sleeping →
      s.phase = .check ∧ s.quit = false) ∧
    (∀ s : ProcState, s.phase = .sleeping → (step (step s)).phase = .check) ∧
    (∀ s : ProcState, s.quit = true → (step s).phase ≠ .sleeping) ∧
    (∀ s : ProcState, s.phase = .drain →
      (step s).phase = .stopped ∧ (step s).flushed = true ∧
        (step s).closed = true) ∧
    exitCodeOf .stopped = some 0 := by
  refine ⟨fun s => rfl, ?_, ?_, ?_, ?_, ?_, ?_, rfl⟩
  · intro s h1 h2
    simp [step, h1, h2]
  · intro s h1 h2
    simp [step, h1, h2]
  · intro s h
    cases hp : s.phase <;> simp [step, hp] at h ⊢
    cases hq : s.quit <;> simp [hq] at h ⊢
  · intro s h
    simp [step, h]
  · intro s h
    cases hp : s.phase <;> simp [step, hp, h]
  · intro s h
    simp [step, h]

/-- C5 witness: concrete states for each conjunct. -/
theorem c5_graceful_shutdown_witness :
    signalhandler ⟨.work, false, false, false⟩ = ⟨.work, true, false, false⟩ ∧
    (step ⟨.check, true, false, false⟩).phase = .drain ∧
    (step ⟨.check, false, false, false⟩).phase = .sleeping ∧
    (step ⟨.drain, true, false, false⟩).phase = .stopped ∧
    (step ⟨.drain, true, false, false⟩).flushed = true ∧
    exitCodeOf .stopped = some 0 :=
  ⟨c5_graceful_shutdown.1 _,
   c5_graceful_shutdown.2.1 _ rfl rfl,
   c5_graceful_shutdown.2.2.1 _ rfl rfl,
   (c5_graceful_shutdown.2.2.2.2.2.2.1 _ rfl).1,
   (c5_graceful_shutdown.2.2.2.2.2.2.1 _ rfl).2.1,
   c5_graceful_shutdown.2.2.2.2.2.2.2⟩

-- ------------------------------------------------------------------
-- C8
-- ------------------------------------------------------------------

/-- C8 (counterexample to the unrestricted claim): with interval 5000
(a valid digit-only argument) the 32-bit product 5000 * 1000 * 1000
wraps modulo 2^32, so the requested sleep is 705032704 µs, about 705
seconds, not the full 5000 seconds. -/
theorem c8_sleep_overflow :
    sleepMicros 5000 = 705032704 ∧ sleepMicros 5000 ≠ 5000 * 1000000 := by
  constructor <;> norm_num [sleepMicros, U32]

/-- C8 (amended): the loop performs a full sample-compute-write cycle
(the `work` phase) before any sleep can be reached, and each sleep
requests interval * 10^6 mod 2^32 microseconds — exactly the full
configured interval whenever interval ≤ 4294 — as a function of the
configured interval alone, regardless of how long the work took. -/
theorem c8_sleep_schedule :
    (∀ (q : Bool) (n : ℕ), phaseAt q n = .sleeping →
      ∃ m, m < n ∧ phaseAt q m = .work) ∧
    (∀ interval : ℕ, interval ≤ 4294 →
      sleepMicros interval = interval * 1000000) := by
  constructor
  · intro q n h
    refine ⟨0, ?_, rfl⟩
    rcases Nat.eq_zero_or_pos n with hn | hn
    · subst hn
      cases q <;> simp [phaseAt] at h
    · exact hn
  · intro interval hi
    simp only [sleepMicros, U32]
    omega

/-- C8 witness: interval 3 sleeps exactly 3000000 µs, and the phase
trace reaches its first sleep only after a work phase. -/
theorem c8_sleep_schedule_witness :
    sleepMicros 3 = 3000000 ∧
    (∃ m, m < 2 ∧ phaseAt false m = .work) :=
  ⟨c8_sleep_schedule.2 3 (by norm_num),
   c8_sleep_schedule.1 false 2 (by decide)⟩

-- ------------------------------------------------------------------
-- C6
-- ------------------------------------------------------------------

theorem getifrowAux_not_mem :
    ∀ (names : List String) (ifname : String) (i : ℕ),
      ifname ∉ names → getifrowAux names ifname i = -1 := by
  intro names
  induction names with
  | nil => intro _ _ _; rfl
  | cons n rest ih =>
    intro ifname i h
    have hn : n ≠ ifname := fun he => h (he ▸ List.mem_cons_self n rest)
    have hr : ifname ∉ rest := fun hm => h (List.mem_cons_of_mem _ hm)
    simp only [getifrowAux, if_neg hn]
    exact ih ifname (i + 1) hr

theorem getifrowAux_first :
    ∀ (pre : List String) (ifname : String) (post : List String) (i : ℕ),
      ifname ∉ pre →
      getifrowAux (pre ++ ifname :: post) ifname i = (i : ℤ) + pre.length := by
  intro pre
  induction pre with
  | nil =>
    intro ifname post i _
    simp [getifrowAux]
  | cons n rest ih =>
    intro ifname post i h
    have hn : n ≠ ifname := fun he => h (he ▸ List.mem_cons_self n rest)
    have hr : ifname ∉ rest := fun hm => h (List.mem_cons_of_mem _ hm)
    rw [List.cons_append]
    simp only [getifrowAux, if_neg hn]
    rw [ih ifname post (i + 1) hr]
    simp only [List.length_cons]
    push_cast
    ring

/-- C6: interface resolution scans rows 1..N in increasing order,
comparing each descriptor's name against the target, and returns the
first (lowest-index) match: if the target first occurs after `pre`
non-matching names its row is pre.length + 1; if no interface matches,
`getifrow` yields -1 and `main` exits with status 1 (the
"Couldn't get interface" error) before the output file is created. -/
theorem c6_interface_resolution :
    (∀ (env : SysEnv) (pre post : List String) (name : String),
      env.ifaces = pre ++ name :: post → name ∉ pre →
      getifrow env name = (pre.length : ℤ) + 1) ∧
    (∀ (env : SysEnv) (name : String), name ∉ env.ifaces →
      getifrow env name = -1) ∧
    (∀ (argv0 outfile ivstr name : String) (env : SysEnv),
      checkDigits ivstr = true → name ∉ env.ifaces →
      startup [argv0, outfile, ivstr, name] env = .ifaceExit ∧
      exitStatus (startup [argv0, outfile, ivstr, name] env) = some 1 ∧
      fileCreated (startup [argv0, outfile, ivstr, name] env) = false) := by
  refine ⟨?_, ?_, ?_⟩
  · intro env pre post name henv hpre
    rw [getifrow, henv, getifrowAux_first pre name post 1 hpre]
    push_cast
    ring
  · intro env name h
    exact getifrowAux_not_mem env.ifaces name 1 h
  · intro argv0 outfile ivstr name env hd hnm
    have hrow : getifrow env name = -1 := getifrowAux_not_mem env.ifaces name 1 hnm
    have hs : startup [argv0, outfile, ivstr, name] env = .ifaceExit := by
      rw [startup_four, if_pos hd, hrow, if_pos (by norm_num)]
    exact ⟨hs, by rw [hs]; rfl, by rw [hs]; rfl⟩

/-- C6 witness: in an interface table [lo0, em0, em0] the name em0
resolves to row 2 (the lowest-index match), and resolving the absent
name xx0 fails with -1 and makes startup exit with status 1 without
creating the output file. -/
theorem c6_interface_resolution_witness :
    getifrow ⟨[("lo0" : String), "em0", "em0"]⟩ ("em0") = 2 ∧
    getifrow ⟨[("lo0" : String), "em0", "em0"]⟩ ("xx0") = -1 ∧
    startup [("p" : String), "out.csv", "1", "xx0"] ⟨[("lo0" : String), "em0", "em0"]⟩ =
      .ifaceExit := by
  refine ⟨?_, ?_, ?_⟩
  · have h := c6_interface_resolution.1 ⟨[("lo0" : String), "em0", "em0"]⟩
      [("lo0" : String)] [("em0" : String)] ("em0") (by decide) (by decide)
    simpa using h
  · exact c6_interface_resolution.2.1 _ ("xx0") (by decide)
  · exact (c6_interface_resolution.2.2 ("p") ("out.csv") ("1") ("xx0")
      ⟨[("lo0" : String), "em0", "em0"]⟩ (by decide) (by decide)).1

-- ------------------------------------------------------------------
-- C7
-- ------------------------------------------------------------------

/-- C7: a wrong argument count, or an interval argument containing a
non-digit character, leads to the usage message and exit status 1; the
outcome is the same for every interface environment (no OS query is
consulted), and no output file is created. -/
theorem c7_usage_errors :
    (∀ argv : List String, argv.length ≠ 4 → ∀ env : SysEnv,
      startup argv env = .usageExit) ∧
    (∀ argv0 outfile ivstr name : String,
      (∃ c ∈ ivstr.data, ¬ c.isDigit) → ∀ env : SysEnv,
      startup [argv0, outfile, ivstr, name] env = .usageExit) ∧
    exitStatus .usageExit = some 1 ∧
    fileCreated .usageExit = false := by
  refine ⟨?_, ?_, rfl, rfl⟩
  · intro argv h env
    rcases argv with _ | ⟨a1, _ | ⟨a2, _ | ⟨a3, _ | ⟨a4, rest⟩⟩⟩⟩
    · rfl
    · rfl
    · rfl
    · rfl
    · rcases rest with _ | ⟨a5, rest⟩
      · exact absurd (by simp) h
      · rfl
  · intro argv0 outfile ivstr name hnd env
    obtain ⟨c, hc, hcd⟩ := hnd
    have hfalse : checkDigits ivstr = false := by
      rw [checkDigits]
      rcases h : ivstr.data.all Char.isDigit with _ | _
      · rfl
      · rw [List.all_eq_true] at h
        exact absurd (h c hc) hcd
    rw [startup_four, hfalse]
    rfl

/-- C7 witness: a two-argument invocation and an invocation with the
non-numeric interval argument abc both end in usageExit with exit
status 1, in an arbitrary concrete environment. -/
theorem c7_usage_errors_witness :
    startup [("p" : String), "out.csv"] ⟨[("em0" : String)]⟩ = .usageExit ∧
    startup [("p" : String), "out.csv", "abc", "em0"] ⟨[("em0" : String)]⟩ =
      .usageExit ∧
    exitStatus .usageExit = some 1 :=
  ⟨c7_usage_errors.1 _ (by simp) _,
   c7_usage_errors.2.1 ("p") ("out.csv") ("abc") ("em0")
     ⟨('a' : Char), by decide, by decide⟩ _,
   c7_usage_errors.2.2.1⟩

-- ------------------------------------------------------------------
-- C10
-- ------------------------------------------------------------------

/-- C10: the empty interval argument passes the digit-only validation
(the loop quantifies over zero characters), `strtol` converts it to 0,
startup proceeds into the sampling loop with interval 0, and the sleep
between iterations requests 0 microseconds. -/
theorem c10_empty_interval :
    checkDigits ("") = true ∧
    parseInterval ("") = 0 ∧
    (∀ (argv0 outfile name : String) (env : SysEnv) (k : ℤ),
      getifrow env name = k → 1 ≤ k →
      startup [argv0, outfile, "", name] env = .running outfile 0 k.toNat) ∧
    sleepMicros 0 = 0 := by
  refine ⟨rfl, rfl, ?_, rfl⟩
  intro argv0 outfile name env k hk h1
  have hred : startup [argv0, outfile, "", name] env =
      if getifrow env name < 1 then .ifaceExit
      else .running outfile 0 (getifrow env name).toNat := rfl
  rw [hred, hk, if_neg (by omega)]

/-- C10 witness: with interface table [em0], the invocation
(p, out.csv, empty interval, em0) reaches the loop with interval 0. -/
theorem c10_empty_interval_witness :
    checkDigits ("") = true ∧
    startup [("p" : String), "out.csv", "", "em0"] ⟨[("em0" : String)]⟩ =
      .running ("out.csv") 0 1 ∧
    sleepMicros 0 = 0 := by
  refine ⟨c10_empty_interval.1, ?_, c10_empty_interval.2.2.2⟩
  have h := c10_empty_interval.2.2.1 ("p") ("out.csv") ("em0")
    ⟨[("em0" : String)]⟩ 1 (by decide) (by norm_num)
  simpa using h

end Ifstat
